import Mathlib

set_option maxHeartbeats 1000000

/-! Verification of the WAF manager core (src/waf_manager.py).

The Python module is shallowly embedded: strings are `List Char`, the
filesystem rules directory is an association list of (filename, content)
pairs in enumeration order, the audit log is an optional list of lines, and
the `WAFManager` object state is a structure.  Regular-expression matching
(Python `re.compile` / `re.search` with `re.IGNORECASE`) is embedded by an
executable fueled backtracking engine covering the constructs used by the
module's built-in signature patterns and by rule contents: literals,
escapes, character classes, `(?:...)` and `(?i)` groups, alternation,
greedy and lazy `*`/`+`/`?` quantifiers, `.`, and the word boundary. -/

/-- Convert a string literal to the character-list representation used by the
embedding. -/
def S (s : String) : List Char := s.toList

/-- Python whitespace set used by str.strip (ASCII fragment, identical to the
characters Python's default strip removes on ASCII data). -/
def isPySpace (c : Char) : Bool :=
  c = ' ' || c = '\t' || c = '\n' || c = '\r' || c = '\x0b' || c = '\x0c'

/-- Embedding of Python str.strip(). -/
def pyStrip (cs : List Char) : List Char :=
  ((cs.dropWhile isPySpace).reverse.dropWhile isPySpace).reverse

/-- Embedding of Python str.lower() on ASCII data. -/
def strLower (cs : List Char) : List Char := cs.map Char.toLower

/-- startsL s p holds when p is a prefix of s (Python str.startswith). -/
def startsL : List Char → List Char → Bool
  | _, [] => true
  | [], _ :: _ => false
  | a :: s, b :: p => if a = b then startsL s p else false

/-- hasSub s p holds when p occurs as a contiguous substring of s (Python
`p in s`). -/
def hasSub : List Char → List Char → Bool
  | [], p => startsL [] p
  | c :: t, p => startsL (c :: t) p || hasSub t p

/-- endsL s p holds when p is a suffix of s (Python str.endswith). -/
def endsL (s p : List Char) : Bool := startsL s.reverse p.reverse

/-- Split a character list at its last dot: the characters strictly before the
last dot together with the segment from the last dot on. -/
def splitDotAux : List Char → Option (List Char × List Char)
  | [] => none
  | c :: cs =>
    match splitDotAux cs with
    | some (b, e) => some (c :: b, e)
    | none => if c = '.' then some ([], c :: cs) else none

/-- Embedding of os.path.splitext(f)[0] for plain file names (no directory
separators): drop the last extension unless every character before the last
dot is itself a dot. -/
def stemOf (f : List Char) : List Char :=
  match splitDotAux f with
  | none => f
  | some (b, _) => if b.all (fun c => c = '.') then f else b

/-- Split on newline characters, the way iterating a Python text file and
stripping each line decomposes a file body. -/
def splitNl : List Char → List (List Char)
  | [] => [[]]
  | c :: cs =>
    match splitNl cs with
    | [] => [[]]
    | l :: ls => if c = '\n' then [] :: l :: ls else (c :: l) :: ls

/-! Regular-expression engine: abstract syntax. -/

/-- One item of a character class. -/
inductive ClsItem where
  | one (c : Char)
  | rng (a b : Char)
  | wordC
  | digitC
  | spaceC
  | nwordC
  | ndigitC
  | nspaceC
deriving Repr, DecidableEq

/-- Regular-expression abstract syntax (the fragment of Python re used by the
module). -/
inductive RE where
  | eps
  | lit (c : Char)
  | anyc
  | cls (neg : Bool) (items : List ClsItem)
  | wordB (neg : Bool)
  | seq (a b : RE)
  | alt (a b : RE)
  | star (lazy : Bool) (r : RE)
deriving Repr, DecidableEq

/-- Python \w test (ASCII). -/
def isWordCh (c : Char) : Bool := c.isAlphanum || c = '_'

/-- Swap the case of an ASCII letter, identity elsewhere. -/
def swapCase (c : Char) : Char :=
  if c.isLower then c.toUpper else if c.isUpper then c.toLower else c

/-- Raw (case-sensitive) test of a class item against a character. -/
def clsItemTest (i : ClsItem) (c : Char) : Bool :=
  match i with
  | .one d => c = d
  | .rng a b => a ≤ c && c ≤ b
  | .wordC => isWordCh c
  | .digitC => c.isDigit
  | .spaceC => isPySpace c
  | .nwordC => !(isWordCh c)
  | .ndigitC => !(c.isDigit)
  | .nspaceC => !(isPySpace c)

/-- Character-class membership under IGNORECASE: a character matches when it
or its case-swapped form meets an item; negation complements. -/
def clsMatch (neg : Bool) (items : List ClsItem) (c : Char) : Bool :=
  let hit := items.any (fun i => clsItemTest i c || clsItemTest i (swapCase c))
  if neg then !hit else hit

/-- Word-character test on an optional boundary neighbour. -/
def isWordO : Option Char → Bool
  | none => false
  | some c => isWordCh c

/-- Fueled backtracking matcher in continuation-passing style.  `prev` is the
character immediately before the current position (for word boundaries), `s`
the remaining input, and `k` the continuation.  Literal comparison is
case-insensitive (re.IGNORECASE). -/
def mtch : Nat → RE → Option Char → List Char → (Option Char → List Char → Bool) → Bool
  | 0, _, _, _, _ => false
  | Nat.succ f, r, prev, s, k =>
    match r with
    | .eps => k prev s
    | .lit c =>
      match s with
      | [] => false
      | x :: xs => if x.toLower = c.toLower then k (some x) xs else false
    | .anyc =>
      match s with
      | [] => false
      | x :: xs => if x = '\n' then false else k (some x) xs
    | .cls neg items =>
      match s with
      | [] => false
      | x :: xs => if clsMatch neg items x then k (some x) xs else false
    | .wordB neg =>
      let b := isWordO prev != isWordO s.head?
      if (if neg then !b else b) then k prev s else false
    | .seq a b => mtch f a prev s (fun p2 s2 => mtch f b p2 s2 k)
    | .alt a b => mtch f a prev s k || mtch f b prev s k
    | .star lz r0 =>
      if lz then
        k prev s || mtch f r0 prev s (fun p2 s2 => mtch f (.star lz r0) p2 s2 k)
      else
        mtch f r0 prev s (fun p2 s2 => mtch f (.star lz r0) p2 s2 k) || k prev s

/-- Try to match at the current position or at any later position (re.search
semantics). -/
def srch (f : Nat) (r : RE) : Option Char → List Char → Bool
  | prev, [] => mtch f r prev [] (fun _ _ => true)
  | prev, x :: xs => mtch f r prev (x :: xs) (fun _ _ => true) || srch f r (some x) xs

/-- Node count of a regex, used to size the matcher fuel. -/
def reNodes : RE → Nat
  | .eps => 1
  | .lit _ => 1
  | .anyc => 1
  | .cls _ _ => 1
  | .wordB _ => 1
  | .seq a b => reNodes a + reNodes b + 1
  | .alt a b => reNodes a + reNodes b + 1
  | .star _ r => reNodes r + 1

/-! Regular-expression parser (embedding of re.compile for the supported
fragment; a pattern outside the fragment is treated as uncompilable). -/

/-- Resolve an escape sequence outside a character class. -/
def escChar (c : Char) : Option RE :=
  if c = 'b' then some (.wordB false)
  else if c = 'B' then some (.wordB true)
  else if c = 'w' then some (.cls false [.wordC])
  else if c = 'W' then some (.cls false [.nwordC])
  else if c = 'd' then some (.cls false [.digitC])
  else if c = 'D' then some (.cls false [.ndigitC])
  else if c = 's' then some (.cls false [.spaceC])
  else if c = 'S' then some (.cls false [.nspaceC])
  else if c = 'n' then some (.lit '\n')
  else if c = 't' then some (.lit '\t')
  else if c = 'r' then some (.lit '\r')
  else if c = 'f' then some (.lit '\x0c')
  else if c = 'v' then some (.lit '\x0b')
  else if c = 'a' then some (.lit '\x07')
  else if c.isAlphanum then none
  else some (.lit c)

/-- Resolve an escape sequence inside a character class. -/
def escCls (c : Char) : Option ClsItem :=
  if c = 'w' then some .wordC
  else if c = 'W' then some .nwordC
  else if c = 'd' then some .digitC
  else if c = 'D' then some .ndigitC
  else if c = 's' then some .spaceC
  else if c = 'S' then some .nspaceC
  else if c = 'n' then some (.one '\n')
  else if c = 't' then some (.one '\t')
  else if c = 'r' then some (.one '\r')
  else if c.isAlphanum then none
  else some (.one c)

/-- Read one class member (a literal character or a resolvable escape). -/
def readClsBase : List Char → Option (ClsItem × List Char)
  | [] => none
  | '\\' :: rest =>
    match rest with
    | [] => none
    | d :: rest2 => (escCls d).map (fun i => (i, rest2))
  | c :: rest => some (.one c, rest)

/-- Parse the items of a character class up to the closing bracket. -/
def parseClsItems : Nat → List Char → Option (List ClsItem × List Char)
  | 0, _ => none
  | Nat.succ f, cs =>
    match cs with
    | [] => none
    | c :: rest =>
      if c = ']' then some ([], rest)
      else
        match readClsBase (c :: rest) with
        | none => none
        | some (base, after) =>
          match after with
          | '-' :: d :: after2 =>
            if d = ']' then
              match parseClsItems f ('-' :: d :: after2) with
              | none => none
              | some (items, rest2) => some (base :: items, rest2)
            else
              match base, readClsBase (d :: after2) with
              | .one a, some (.one b, after3) =>
                match parseClsItems f after3 with
                | none => none
                | some (items, rest2) => some (.rng a b :: items, rest2)
              | _, _ => none
          | _ =>
            match parseClsItems f after with
            | none => none
            | some (items, rest2) => some (base :: items, rest2)

/-- Characters that cannot begin an atom (quantifiers with no operand,
grouping and anchor syntax outside the supported fragment). -/
def badAtomHead (c : Char) : Bool :=
  c = '*' || c = '+' || c = '?' || c = '|' || c = ')' || c = '^' || c = '$' || c = '\x7b' || c = '\x7d'

/-- Recursive-descent parser.  Level 0 parses an alternation, level 1 a
sequence, level 2 a quantified piece, any other level an atom. -/
def parseLvl : Nat → Nat → List Char → Option (RE × List Char)
  | 0, _, _ => none
  | Nat.succ f, 0, cs =>
    match parseLvl f 1 cs with
    | none => none
    | some (e, rest) =>
      match rest with
      | '|' :: rs =>
        match parseLvl f 0 rs with
        | none => none
        | some (e2, rest2) => some (.alt e e2, rest2)
      | _ => some (e, rest)
  | Nat.succ f, 1, cs =>
    match cs with
    | [] => some (.eps, [])
    | c :: _ =>
      if c = ')' || c = '|' then some (.eps, cs)
      else
        match parseLvl f 2 cs with
        | none => none
        | some (p, rest) =>
          match parseLvl f 1 rest with
          | none => none
          | some (q, rest2) => some (.seq p q, rest2)
  | Nat.succ f, 2, cs =>
    match parseLvl f 3 cs with
    | none => none
    | some (a, rest) =>
      match rest with
      | '*' :: '?' :: rs => some (.star true a, rs)
      | '*' :: rs => some (.star false a, rs)
      | '+' :: '?' :: rs => some (.seq a (.star true a), rs)
      | '+' :: rs => some (.seq a (.star false a), rs)
      | '?' :: '?' :: rs => some (.alt .eps a, rs)
      | '?' :: rs => some (.alt a .eps, rs)
      | _ => some (a, rest)
  | Nat.succ f, _, cs =>
    match cs with
    | [] => none
    | '(' :: rest =>
      match rest with
      | '?' :: ':' :: rest2 =>
        match parseLvl f 0 rest2 with
        | none => none
        | some (e, rest3) =>
          match rest3 with
          | ')' :: rest4 => some (e, rest4)
          | _ => none
      | '?' :: rest2 =>
        match rest2.span Char.isAlpha with
        | (flags, rest3) =>
          if flags = [] then none
          else
            match rest3 with
            | ')' :: rest4 => some (.eps, rest4)
            | _ => none
      | _ =>
        match parseLvl f 0 rest with
        | none => none
        | some (e, rest3) =>
          match rest3 with
          | ')' :: rest4 => some (e, rest4)
          | _ => none
    | '[' :: rest =>
      match rest with
      | '^' :: rest2 =>
        match parseClsItems (rest2.length + 1) rest2 with
        | none => none
        | some (items, rest3) => some (.cls true items, rest3)
      | _ =>
        match parseClsItems (rest.length + 1) rest with
        | none => none
        | some (items, rest3) => some (.cls false items, rest3)
    | '\\' :: rest =>
      match rest with
      | [] => none
      | d :: rest2 => (escChar d).map (fun r => (r, rest2))
    | '.' :: rest => some (.anyc, rest)
    | c :: rest => if badAtomHead c then none else some (.lit c, rest)

/-- Embedding of re.compile on the supported fragment: parse the whole
pattern or fail. -/
def parseRE (pat : List Char) : Option RE :=
  match parseLvl (4 * pat.length + 8) 0 pat with
  | some (r, []) => some r
  | _ => none

/-- A rule line (or content) compiles when the parser accepts it. -/
def compiles (pat : List Char) : Bool := (parseRE pat).isSome

/-- Embedding of re.search(pat, s, re.IGNORECASE): False when the pattern
does not compile (callers catch re.error), otherwise search at every start
position. -/
def reSearch (pat s : List Char) : Bool :=
  match parseRE pat with
  | none => false
  | some r => srch ((reNodes r + 2) * (s.length + 2) * 2 + 8) r none s


/-! Data model of the WAF manager (src/waf_manager.py, class WAFManager). -/

/-- One match produced by WAFManager._check_patterns: a dictionary with keys
category, pattern, value and (for custom rules only) source. -/
structure MatchRecord where
  category : List Char
  pattern : List Char
  value : List Char
  source : Option (List Char)
deriving Repr, DecidableEq

/-- The dictionary returned by WAFManager.test_request.  The error-shaped
result carries neither status_code nor action, hence the optional fields. -/
structure Verdict where
  blocked : Bool
  status_code : Option Nat
  matched_rules : List (List Char)
  score : Nat
  action : Option (List Char)
  error : Option (List Char)
deriving Repr, DecidableEq

/-- State of a WAFManager object together with its observable environment:
`fsRules` is the rules directory (filename, file content) in enumeration
order, `logLines` the audit-log file as a list of lines (none when the file
does not exist), and `rules` the loaded rule list self.rules
((rule_file, pattern line) pairs; none models self.rules = None). -/
structure WAFManager where
  fsRules : List (List Char × List Char)
  logLines : Option (List (List Char))
  rules : Option (List (List Char × List Char))
deriving Repr, DecidableEq

/-- The built-in signature catalogue self.patterns, in insertion order. -/
def patterns : List (List Char × List (List Char)) := [
  (S "sqli", [
    S "\\b(?:select\\s.*?from|insert\\s+into|update\\s+\\w+\\s+set|delete\\s+from)\\b",
    S "\\b(?:union\\s+(?:all\\s+)?select|union\\s*\\()",
    S "\\b(?:exec\\s*\\(|xp_cmdshell|sp_executesql)\\b",
    S "\\b(?:--|#|\\/\\*|\\*\\/|;--|;\\*|;)\\s",
    S "\\b(?:or\\s+\\d+=\\d+|\"\\s*or\\s*\"[^=]+\"\\s*=\\s*\"[^\"]+\")\\b"]),
  (S "xss", [
    S "(?i)<script[^>]*>.*?</script>",
    S "(?i)on\\w+\\s*=",
    S "(?i)javascript:",
    S "<[^>]*(?:src|href)=\\s*[\"\x27]?javascript:",
    S "<[^>]*(?:on\\w+)=\\s*[\\\"\\\x27][^\\\"]*[\\\"\\\x27]"]),
  (S "path_traversal", [
    S "(?:\\.\\.(?:%2e%2e|%252e%252e|\\/|\\\\))+",
    S "\\b(?:etc\\/|etc\\\\)",
    S "\\b(?:passwd|shadow|hosts|\\/etc\\/|c:\\\\windows\\\\system32\\\\|\\/bin\\/sh)\\b"])]

/-- A file name carries a recognized rule extension (endswith(('.conf',
'.rule'))). -/
def endsExt (f : List Char) : Bool := endsL f (S ".conf") || endsL f (S ".rule")

/-- Loading of one rule file in _initialize_waf: strip each line, skip empty
and comment lines, keep lines that compile (uncompilable lines are only
logged). -/
def parseRuleLines (fname content : List Char) : List (List Char × List Char) :=
  (splitNl content).filterMap (fun line =>
    let l := pyStrip line
    if l = [] then none
    else if startsL l (S "#") then none
    else if compiles l then some (fname, l) else none)

/-- Rule loading of _initialize_waf: every file of the rules directory with a
recognized extension contributes its compilable lines in order. -/
def loadRules (fs : List (List Char × List Char)) : List (List Char × List Char) :=
  (fs.filter (fun e => endsExt e.1)).flatMap (fun e => parseRuleLines e.1 e.2)

/-- WAFManager.__init__: directories are created and _initialize_waf runs,
unconditionally setting self.rules to the loaded rule list. -/
def WAFManager.new (fs : List (List Char × List Char))
    (logLines : Option (List (List Char))) : WAFManager :=
  { fsRules := fs, logLines := logLines, rules := some (loadRules fs) }

/-- WAFManager.get_status: the WAF counts as running iff self.rules is not
None. -/
def get_status (m : WAFManager) : Bool := m.rules.isSome

/-- WAFManager.start_waf. -/
def start_waf (m : WAFManager) : (Bool × List Char) × WAFManager :=
  if get_status m then ((false, S "WAF is already running"), m)
  else ((true, S "WAF started successfully"),
        { m with rules := some (loadRules m.fsRules) })

/-- WAFManager.stop_waf: sets self.rules to None (an assignment that cannot
fail, so the except branch is dead code). -/
def stop_waf (m : WAFManager) : (Bool × List Char) × WAFManager :=
  ((true, S "WAF stopped successfully"), { m with rules := none })

/-- WAFManager.list_rules: names (extension stripped) of the files of the
rules directory carrying a recognized extension, in enumeration order. -/
def list_rules (m : WAFManager) : List (List Char) :=
  m.fsRules.filterMap (fun e => if endsExt e.1 then some (stemOf e.1) else none)

/-- Content of the file with the given name in the rules directory, when it
exists. -/
def lookupFile (fs : List (List Char × List Char)) (name : List Char) :
    Option (List Char) :=
  (fs.find? (fun e => e.1 = name)).map (fun e => e.2)

/-- os.path.exists for the rules directory. -/
def fileExists (fs : List (List Char × List Char)) (name : List Char) : Bool :=
  (lookupFile fs name).isSome

/-- WAFManager.get_rule_content: empty name gives "", otherwise try the .conf
path first (for extensionless names), fall back to .rule, and read the file
when it exists. -/
def get_rule_content (m : WAFManager) (name : List Char) : List Char :=
  if name = [] then []
  else
    let path :=
      if endsExt name then name
      else if fileExists m.fsRules (name ++ S ".conf") then name ++ S ".conf"
      else name ++ S ".rule"
    match lookupFile m.fsRules path with
    | none => []
    | some content => content

/-- WAFManager.add_rule.  The two ValueError raises propagate to the caller
and are modelled by Except.error; every other outcome is a returned
(success, message) pair.  The state is returned alongside so that the
absence of a filesystem write is expressible. -/
def add_rule (m : WAFManager) (rule_content rule_name : List Char) :
    Except (List Char) (Bool × List Char) × WAFManager :=
  if pyStrip rule_name = [] then
    (.error (S "Rule name must be a non-empty string"), m)
  else if hasSub rule_name (S "..") || hasSub rule_name (S "/")
      || hasSub rule_name (S "\\") then
    (.error (S "Invalid rule name: cannot contain path traversal characters"), m)
  else if strLower rule_name ∈ (list_rules m).map strLower then
    (.ok (false, S "A rule named \x27" ++ rule_name ++ S "\x27 already exists"), m)
  else if pyStrip rule_content = [] then
    (.ok (false, S "Rule content cannot be empty"), m)
  else if !(compiles rule_content) then
    (.ok (false, S "Invalid regex pattern: bad pattern"), m)
  else
    let name2 := if endsExt rule_name then rule_name else rule_name ++ S ".rule"
    if fileExists m.fsRules name2 then
      (.ok (false, S "Rule \x27" ++ name2 ++ S "\x27 was created by another process"), m)
    else
      let fs2 := m.fsRules ++ [(name2, rule_content)]
      let rules2 := if get_status m then some (loadRules fs2) else m.rules
      (.ok (true, S "Rule " ++ name2 ++ S " added successfully"),
       { m with fsRules := fs2, rules := rules2 })

/-- WAFManager.get_logs: keep a sliding buffer of at most n lines while
scanning the file, exactly as the source loop does (append the line, then
pop the front when the buffer exceeds n). -/
def get_logs (m : WAFManager) (n : Nat) : List Char :=
  match m.logLines with
  | none => S "No logs available"
  | some ls =>
    (ls.foldl (fun buf line =>
      if n < (buf ++ [line]).length then (buf ++ [line]).drop 1
      else buf ++ [line]) []).flatten

/-- Built-in half of _check_patterns as a direct comprehension: for every
category in insertion order, every pattern of the category in order that
fires on the value. -/
def builtinMatches (v : List Char) : List MatchRecord :=
  patterns.flatMap (fun cp =>
    (cp.2.filter (fun p => reSearch p v)).map
      (fun p => { category := cp.1, pattern := p, value := v, source := none }))

/-- Custom half of _check_patterns as a direct comprehension: the loaded
rules in enumeration order that fire on the value, skipped entirely when
self.rules is None. -/
def customMatches (rs : Option (List (List Char × List Char))) (v : List Char) :
    List MatchRecord :=
  match rs with
  | none => []
  | some l =>
    (l.filter (fun e => reSearch e.2 v)).map
      (fun e => { category := S "custom_rule", pattern := e.2, value := v,
                  source := some e.1 })

/-- The built-in loop of _check_patterns: fold over the categories in
insertion order, appending one record per firing pattern. -/
def builtinFold (v : List Char) : List MatchRecord :=
  patterns.foldl (fun acc cp =>
    cp.2.foldl (fun acc2 p =>
      if reSearch p v then
        acc2 ++ [{ category := cp.1, pattern := p, value := v, source := none }]
      else acc2) acc) []

/-- The custom-rule loop of _check_patterns: fold over the loaded rules in
order, appending one record per firing rule onto the built-in records. -/
def customFold (rs : List (List Char × List Char)) (v : List Char)
    (acc0 : List MatchRecord) : List MatchRecord :=
  rs.foldl (fun acc e =>
    if reSearch e.2 v then
      acc ++ [{ category := S "custom_rule", pattern := e.2, value := v,
                source := some e.1 }]
    else acc) acc0

/-- WAFManager._check_patterns, translated with the same accumulation
structure as the source: an empty value short-circuits, the value is
lowercased, the built-in loop appends its records first, then the custom-rule
loop appends its records when self.rules is not None. -/
def _check_patterns (m : WAFManager) (value : List Char) : List MatchRecord :=
  if value = [] then []
  else
    match m.rules with
    | none => builtinFold (strLower value)
    | some rs => customFold rs (strLower value) (builtinFold (strLower value))

/-- Scheme well-formedness as urlparse determines it: a letter followed by
letters, digits, or one of + - . -/
def schemeOk (cs : List Char) : Bool :=
  match cs with
  | [] => false
  | c :: rest => c.isAlpha && rest.all (fun d => d.isAlphanum || d = '+' || d = '-' || d = '.')

/-- Split a URL at its first colon. -/
def splitColon : List Char → Option (List Char × List Char)
  | [] => none
  | c :: cs =>
    if c = ':' then some ([], cs)
    else (splitColon cs).map (fun p => (c :: p.1, p.2))

/-- The all([parsed.scheme, parsed.netloc]) test of test_request: a valid
scheme before the first colon, then //, then a non-empty network location. -/
def urlOk (url : List Char) : Bool :=
  match splitColon url with
  | none => false
  | some (sch, rest) =>
    schemeOk sch && startsL rest (S "//") &&
    (match rest.drop 2 with
     | [] => false
     | c :: _ => !(c = '/' || c = '?' || c = '#'))

/-- The error-shaped result test_request returns from its except branch. -/
def errVerdict (e : List Char) : Verdict :=
  { blocked := false, status_code := none, matched_rules := [], score := 0,
    action := none, error := some e }

/-- The labeled match strings test_request accumulates: the URL first (with
the http:// coercion of the source), then each header as "name: value", then
a non-empty body. -/
def collectMatches (m : WAFManager) (url : List Char)
    (headers : List (List Char × List Char)) (data : Option (List Char)) :
    List (List Char) :=
  let url2 := if startsL url (S "http://") || startsL url (S "https://")
              then url else S "http://" ++ url
  let urlMs := (_check_patterns m url2).map (fun r => S "URL: " ++ r.pattern)
  let hdrMs := headers.flatMap (fun h =>
    (_check_patterns m (h.1 ++ S ": " ++ h.2)).map
      (fun r => S "Header " ++ h.1 ++ S ": " ++ r.pattern))
  let bodyMs := match data with
    | none => []
    | some d =>
      if d = [] then []
      else (_check_patterns m d).map (fun r => S "Body: " ++ r.pattern)
  urlMs ++ hdrMs ++ bodyMs

/-- The no-match result of test_request. -/
def passVerdict : Verdict :=
  { blocked := false, status_code := some 200, matched_rules := [],
    score := 0, action := some (S "PASS"), error := none }

/-- The blocking result of test_request for a non-empty match list. -/
def denyVerdict (ms : List (List Char)) : Verdict :=
  { blocked := true, status_code := some 403, matched_rules := ms,
    score := ms.length, action := some (S "DENY"), error := none }

/-- WAFManager.test_request.  The two ValueError raises before the try block
(WAF not running, empty URL) propagate and are modelled by Except.error; the
URL-format ValueError is raised inside the try block and caught by the
except branch, producing the error-shaped dictionary. -/
def test_request (m : WAFManager) (url method : List Char)
    (headers : List (List Char × List Char)) (data : Option (List Char)) :
    Except (List Char) Verdict :=
  if !(get_status m) then .error (S "WAF is not running")
  else if url = [] then .error (S "URL must be a non-empty string")
  else if !(urlOk url) then
    .ok (errVerdict (S "Invalid URL format. Must include scheme (http/https) and hostname"))
  else if collectMatches m url headers data = [] then .ok passVerdict
  else .ok (denyVerdict (collectMatches m url headers data))


/-! Helper lemmas. -/

/-- A list always starts with itself followed by anything. -/
theorem startsL_append (p t : List Char) : startsL (p ++ t) p = true := by
  induction p with
  | nil => cases t <;> rfl
  | cons a p ih => simp [startsL, ih]

/-- endsL holds for an appended suffix. -/
theorem endsL_append (n e : List Char) : endsL (n ++ e) e = true := by
  unfold endsL
  rw [List.reverse_append]
  exact startsL_append _ _

/-- A name extended with .rule never ends in .conf. -/
theorem not_endsL_rule_conf (n : List Char) :
    endsL (n ++ S ".rule") (S ".conf") = false := by
  unfold endsL
  rw [List.reverse_append]
  have h1 : (S ".rule").reverse = 'e' :: 'l' :: 'u' :: 'r' :: '.' :: [] := rfl
  have h2 : (S ".conf").reverse = 'f' :: 'n' :: 'o' :: 'c' :: '.' :: [] := rfl
  rw [h1, h2]
  simp only [startsL]
  rw [if_neg (by decide)]

-- quick check that endsExt of an extended name computes
example : endsExt (S "ab" ++ S ".rule") = true := by
  simp [endsExt, endsL_append]

/-- splitDotAux distributes over an appended tail that itself splits. -/
theorem splitDotAux_append (xs e b r : List Char)
    (h : splitDotAux e = some (b, r)) :
    splitDotAux (xs ++ e) = some (xs ++ b, r) := by
  induction xs with
  | nil => simpa using h
  | cons c cs ih => simp [splitDotAux, ih]

/-- Compute the stem from a split whose head part is not all dots. -/
theorem stemOf_of_split (f b r : List Char) (h : splitDotAux f = some (b, r))
    (hall : (b.all fun c => c = '.') = false) : stemOf f = b := by
  unfold stemOf
  rw [h]
  show (if (b.all fun c => decide (c = '.')) = true then f else b) = b
  rw [hall]
  simp

/-- All-dots test fails for a list with a witness character other than a
dot. -/
theorem all_dot_false (n : List Char) (h : ∃ c ∈ n, c ≠ '.') :
    (n.all fun c => c = '.') = false := by
  obtain ⟨c, hc, hne⟩ := h
  rw [List.all_eq_false]
  exact ⟨c, hc, by simpa using hne⟩

/-- The stem of a name extended with the .rule suffix is the name itself, as
long as the name has a character other than a dot. -/
theorem stemOf_append_rule (n : List Char) (h : ∃ c ∈ n, c ≠ '.') :
    stemOf (n ++ S ".rule") = n := by
  have hs : splitDotAux (S ".rule") = some ([], S ".rule") := rfl
  have h2 := splitDotAux_append n (S ".rule") [] (S ".rule") hs
  rw [List.append_nil] at h2
  exact stemOf_of_split _ _ _ h2 (all_dot_false n h)

/-- The stem of a name extended with the .conf suffix is the name itself, as
long as the name has a character other than a dot. -/
theorem stemOf_append_conf (n : List Char) (h : ∃ c ∈ n, c ≠ '.') :
    stemOf (n ++ S ".conf") = n := by
  have hs : splitDotAux (S ".conf") = some ([], S ".conf") := rfl
  have h2 := splitDotAux_append n (S ".conf") [] (S ".conf") hs
  rw [List.append_nil] at h2
  exact stemOf_of_split _ _ _ h2 (all_dot_false n h)

/-- A non-empty name other than "." that does not contain ".." has a
character other than a dot. -/
theorem exists_ne_dot (n : List Char) (h0 : n ≠ []) (h1 : n ≠ S ".")
    (h2 : hasSub n (S "..") = false) : ∃ c ∈ n, c ≠ '.' := by
  match n with
  | [] => exact absurd rfl h0
  | a :: as =>
    by_cases ha : a = '.'
    · subst ha
      match as with
      | [] => exact absurd rfl h1
      | b :: bs =>
        by_cases hb : b = '.'
        · subst hb
          exfalso
          have : hasSub ('.' :: '.' :: bs) (S "..") = true := by
            simp [hasSub, startsL, S]
          rw [this] at h2
          exact Bool.noConfusion h2
        · exact ⟨b, by simp, hb⟩
    · exact ⟨a, by simp, ha⟩

/-- Membership transfers along a startsL prefix. -/
theorem mem_of_startsL (p : List Char) : ∀ (s : List Char) (x : Char),
    startsL s p = true → x ∈ p → x ∈ s := by
  induction p with
  | nil => intro s x _ hx; simp at hx
  | cons b p ih =>
    intro s x hs hx
    match s with
    | [] => simp [startsL] at hs
    | a :: s2 =>
      simp only [startsL] at hs
      by_cases hab : a = b
      · rw [if_pos hab] at hs
        rcases List.mem_cons.mp hx with h | h
        · subst h; rw [hab]; exact List.mem_cons_self _ _
        · exact List.mem_cons_of_mem _ (ih s2 x hs h)
      · rw [if_neg hab] at hs; exact absurd hs Bool.false_ne_true

/-- Membership transfers from a substring to the string containing it. -/
theorem mem_of_hasSub (s p : List Char) (x : Char)
    (hs : hasSub s p = true) (hx : x ∈ p) : x ∈ s := by
  induction s with
  | nil =>
    match p with
    | [] => simp at hx
    | c :: p2 => simp [hasSub, startsL] at hs
  | cons c t ih =>
    simp only [hasSub, Bool.or_eq_true] at hs
    rcases hs with h | h
    · exact mem_of_startsL p (c :: t) x h hx
    · exact List.mem_cons_of_mem _ (ih h)

/-- A member survives dropWhile when the predicate does not hold of it. -/
theorem mem_dropWhile_isPySpace (l : List Char) (x : Char)
    (hx : x ∈ l) (h : isPySpace x = false) : x ∈ l.dropWhile isPySpace := by
  induction l with
  | nil => simp at hx
  | cons a t ih =>
    by_cases ha : isPySpace a = true
    · rw [List.dropWhile_cons_of_pos ha]
      rcases List.mem_cons.mp hx with h2 | h2
      · subst h2; rw [h] at ha; exact absurd ha Bool.false_ne_true
      · exact ih h2
    · rw [List.dropWhile_cons_of_neg ha]
      exact hx

/-- A string containing a non-whitespace character does not strip to the
empty string. -/
theorem pyStrip_ne_nil (cs : List Char) (x : Char)
    (hx : x ∈ cs) (h : isPySpace x = false) : pyStrip cs ≠ [] := by
  unfold pyStrip
  intro hcon
  have m1 := mem_dropWhile_isPySpace cs x hx h
  have m2 : x ∈ (cs.dropWhile isPySpace).reverse := List.mem_reverse.mpr m1
  have m3 := mem_dropWhile_isPySpace _ x m2 h
  have m4 : x ∈ ((cs.dropWhile isPySpace).reverse.dropWhile isPySpace).reverse :=
    List.mem_reverse.mpr m3
  rw [hcon] at m4
  simp at m4

/-- Characterization of list_rules membership. -/
theorem mem_list_rules (m : WAFManager) (x : List Char) :
    x ∈ list_rules m ↔ ∃ e ∈ m.fsRules, endsExt e.1 = true ∧ stemOf e.1 = x := by
  unfold list_rules
  rw [List.mem_filterMap]
  constructor
  · rintro ⟨e, he, hfe⟩
    by_cases hx : endsExt e.1 = true
    · rw [if_pos hx] at hfe
      exact ⟨e, he, hx, Option.some.inj hfe⟩
    · rw [if_neg hx] at hfe
      exact absurd hfe (Option.noConfusion)
  · rintro ⟨e, he, hx, hs⟩
    exact ⟨e, he, by rw [if_pos hx, hs]⟩

/-- No stored file can bear a name whose stem would collide with a fresh
name. -/
theorem find?_none_of_fresh (m : WAFManager) (n ext : List Char)
    (hstem : stemOf (n ++ ext) = n) (hx : endsExt (n ++ ext) = true)
    (hdup : strLower n ∉ (list_rules m).map strLower) :
    m.fsRules.find? (fun e => e.1 = n ++ ext) = none := by
  rw [List.find?_eq_none]
  intro e he
  simp only [decide_eq_true_eq]
  intro heq
  apply hdup
  have hmem : stemOf e.1 ∈ list_rules m :=
    (mem_list_rules m _).mpr ⟨e, he, by rw [heq]; exact hx, rfl⟩
  rw [heq, hstem] at hmem
  exact List.mem_map_of_mem strLower hmem

/-- A file whose stem would collide with a fresh name cannot be present. -/
theorem fileExists_false_of_fresh (m : WAFManager) (n ext : List Char)
    (hstem : stemOf (n ++ ext) = n) (hx : endsExt (n ++ ext) = true)
    (hdup : strLower n ∉ (list_rules m).map strLower) :
    fileExists m.fsRules (n ++ ext) = false := by
  unfold fileExists lookupFile
  rw [find?_none_of_fresh m n ext hstem hx hdup]
  rfl

/-- The state after a successful add of a fresh extensionless rule name. -/
def addedState (m : WAFManager) (c n : List Char) : WAFManager :=
  { m with fsRules := m.fsRules ++ [(n ++ S ".rule", c)],
           rules := if get_status m
                    then some (loadRules (m.fsRules ++ [(n ++ S ".rule", c)]))
                    else m.rules }

/-- Successful execution of add_rule on a fresh, extensionless, traversal-free
name with valid content. -/
theorem add_rule_fresh (m : WAFManager) (c n : List Char)
    (hname : pyStrip n ≠ [])
    (h1 : hasSub n (S "..") = false) (h2 : hasSub n (S "/") = false)
    (h3 : hasSub n (S "\\") = false)
    (hext : endsExt n = false) (hdot : n ≠ S ".")
    (hdup : strLower n ∉ (list_rules m).map strLower)
    (hc : pyStrip c ≠ []) (hcomp : compiles c = true) :
    add_rule m c n =
      (.ok (true, S "Rule " ++ (n ++ S ".rule") ++ S " added successfully"),
       addedState m c n) := by
  have hnil : n ≠ [] := by
    intro h
    rw [h] at hname
    exact hname rfl
  have hnd := exists_ne_dot n hnil hdot h1
  unfold add_rule
  rw [if_neg hname]
  rw [if_neg (by rw [h1, h2, h3]; exact Bool.noConfusion)]
  rw [if_neg hdup]
  rw [if_neg hc]
  rw [if_neg (by rw [hcomp]; exact Bool.noConfusion)]
  simp only [hext, Bool.false_eq_true, if_false]
  rw [if_neg (by
    rw [fileExists_false_of_fresh m n (S ".rule") (stemOf_append_rule n hnd)
      (by simp [endsExt, endsL_append]) hdup]
    exact Bool.noConfusion)]
  rfl

/-- Listing after the fresh add appends exactly the new name. -/
theorem list_rules_addedState (m : WAFManager) (c n : List Char)
    (hnd : ∃ x ∈ n, x ≠ '.') :
    list_rules (addedState m c n) = list_rules m ++ [n] := by
  unfold addedState list_rules
  simp only []
  rw [List.filterMap_append]
  have hone : List.filterMap
      (fun e => if endsExt e.1 = true then some (stemOf e.1) else none)
      [(n ++ S ".rule", c)] = [n] := by
    simp [endsExt, endsL_append, stemOf_append_rule n hnd]
  rw [hone]

/-- Reading the fresh name back from the post-add state returns exactly the
written content. -/
theorem get_rule_content_addedState (m : WAFManager) (c n : List Char)
    (hnil : n ≠ []) (hext : endsExt n = false)
    (hnd : ∃ x ∈ n, x ≠ '.')
    (hdup : strLower n ∉ (list_rules m).map strLower) :
    get_rule_content (addedState m c n) n = c := by
  have hneq : (n ++ S ".rule" : List Char) ≠ n ++ S ".conf" := by
    intro h
    have h2 := List.append_cancel_left h
    exact absurd h2 (by decide)
  have hconfNone : (addedState m c n).fsRules.find? (fun e => e.1 = n ++ S ".conf") = none := by
    show (m.fsRules ++ [(n ++ S ".rule", c)]).find? (fun e => e.1 = n ++ S ".conf") = none
    rw [List.find?_append]
    rw [find?_none_of_fresh m n (S ".conf") (stemOf_append_conf n hnd)
      (by simp [endsExt, endsL_append]) hdup]
    simp only [Option.none_or]
    simp [List.find?, decide_eq_false hneq]
    rfl
  have hruleFind : (addedState m c n).fsRules.find? (fun e => e.1 = n ++ S ".rule")
      = some (n ++ S ".rule", c) := by
    show (m.fsRules ++ [(n ++ S ".rule", c)]).find? (fun e => e.1 = n ++ S ".rule")
      = some (n ++ S ".rule", c)
    rw [List.find?_append]
    rw [find?_none_of_fresh m n (S ".rule") (stemOf_append_rule n hnd)
      (by simp [endsExt, endsL_append]) hdup]
    simp [List.find?]
  unfold get_rule_content
  rw [if_neg hnil]
  simp only [hext, Bool.false_eq_true, if_false]
  have hfe : fileExists (addedState m c n).fsRules (n ++ S ".conf") = false := by
    unfold fileExists lookupFile
    rw [hconfNone]
    rfl
  rw [hfe]
  simp only [Bool.false_eq_true, if_false]
  unfold lookupFile
  rw [hruleFind]
  rfl

/-! Claim theorems. -/

/-- C1 counterexample: the claim says status() is false for a freshly
constructed WAFManager before any start(), but __init__ runs
_initialize_waf, which sets self.rules to a list, so status() is true. -/
theorem c1_initial_running_cex : get_status (WAFManager.new [] none) = true := rfl

/-- C1 (amended): a freshly constructed WAFManager already reports Running
(construction loads the rule set), so start() on it fails with "already
running"; after stop() the status is false, and a subsequent start()
succeeds and the status is true again. -/
theorem c1_lifecycle (fs : List (List Char × List Char))
    (lf : Option (List (List Char))) :
    get_status (WAFManager.new fs lf) = true ∧
    (start_waf (WAFManager.new fs lf)).1 = (false, S "WAF is already running") ∧
    get_status (stop_waf (WAFManager.new fs lf)).2 = false ∧
    (start_waf (stop_waf (WAFManager.new fs lf)).2).1.1 = true ∧
    get_status (start_waf (stop_waf (WAFManager.new fs lf)).2).2 = true :=
  ⟨rfl, rfl, rfl, rfl, rfl⟩

/-- C3 counterexample: with the engine Stopped, stop() still reports
success, contradicting the claim that it reports failure. -/
theorem c3_stop_on_stopped_cex :
    get_status (stop_waf (WAFManager.new [] none)).2 = false ∧
    (stop_waf (stop_waf (WAFManager.new [] none)).2).1.1 = true := ⟨rfl, rfl⟩

/-- C3 (amended): stop_waf unconditionally reports success and leaves the
engine Stopped, whatever the prior state; the failure branch of the source
is dead code because assigning None to self.rules cannot raise. -/
theorem c3_stop_always_succeeds (m : WAFManager) :
    stop_waf m = ((true, S "WAF stopped successfully"), { m with rules := none }) ∧
    get_status (stop_waf m).2 = false := ⟨rfl, rfl⟩

/-- C4 counterexample: the accepted name "." (non-empty, no traversal
characters, no recognized extension, not stored) is saved as the file
"..rule", whose displayed stem is "..rule" rather than ".", so list() after
the successful add does not contain "." at all. -/
theorem c4_dot_name_cex :
    (add_rule (WAFManager.new [] none) (S "evil") (S ".")).1
      = .ok (true, S "Rule ..rule added successfully") ∧
    (list_rules (add_rule (WAFManager.new [] none) (S "evil") (S ".")).2).count
      (S ".") = 0 ∧
    list_rules (add_rule (WAFManager.new [] none) (S "evil") (S ".")).2
      = [S "..rule"] := ⟨rfl, by decide, by decide⟩

/-- C4 (amended): for every accepted rule name n that moreover is not the
single-dot name ".", and every valid compilable content c, a successful
add(c, n) makes list() contain n exactly once and getContent(n) return
exactly c. -/
theorem c4_add_then_list_and_get (m : WAFManager) (c n : List Char)
    (hname : pyStrip n ≠ [])
    (h1 : hasSub n (S "..") = false) (h2 : hasSub n (S "/") = false)
    (h3 : hasSub n (S "\\") = false)
    (hext : endsExt n = false) (hdot : n ≠ S ".")
    (hdup : strLower n ∉ (list_rules m).map strLower)
    (hc : pyStrip c ≠ []) (hcomp : compiles c = true) :
    ∃ msg m2, add_rule m c n = (.ok (true, msg), m2) ∧
      (list_rules m2).count n = 1 ∧ get_rule_content m2 n = c := by
  have hnil : n ≠ [] := by
    intro h
    rw [h] at hname
    exact hname rfl
  have hnd := exists_ne_dot n hnil hdot h1
  refine ⟨_, addedState m c n,
    add_rule_fresh m c n hname h1 h2 h3 hext hdot hdup hc hcomp, ?_, ?_⟩
  · rw [list_rules_addedState m c n hnd, List.count_append]
    have h0 : (list_rules m).count n = 0 := by
      rw [List.count_eq_zero]
      intro hmem
      exact hdup (List.mem_map_of_mem strLower hmem)
    rw [h0]
    simp
  · exact get_rule_content_addedState m c n hnil hext hnd hdup

/-- C4 witness: concrete instantiation at the fresh name r1 with content
evil over an empty rules directory. -/
theorem c4_witness :
    ∃ msg m2,
      add_rule (WAFManager.new [] none) (S "evil") (S "r1") = (.ok (true, msg), m2) ∧
      (list_rules m2).count (S "r1") = 1 ∧ get_rule_content m2 (S "r1") = S "evil" :=
  c4_add_then_list_and_get (WAFManager.new [] none) (S "evil") (S "r1")
    (by decide) (by decide) (by decide) (by decide) (by decide) (by decide)
    (by decide) (by decide) (by decide)

/-- C7: a rule name containing "..", "/" or "\" makes add_rule fail with
the path-traversal ValueError before any filesystem access, leaving the
store untouched. -/
theorem c7_path_traversal (m : WAFManager) (c name : List Char)
    (h : hasSub name (S "..") = true ∨ hasSub name (S "/") = true ∨
         hasSub name (S "\\") = true) :
    add_rule m c name =
      (.error (S "Invalid rule name: cannot contain path traversal characters"), m) := by
  have hmem : ∃ x ∈ name, isPySpace x = false := by
    rcases h with h | h | h
    · exact ⟨'.', mem_of_hasSub _ _ '.' h (by decide), by decide⟩
    · exact ⟨'/', mem_of_hasSub _ _ '/' h (by decide), by decide⟩
    · exact ⟨'\\', mem_of_hasSub _ _ '\\' h (by decide), by decide⟩
  obtain ⟨x, hx, hxs⟩ := hmem
  have hstrip := pyStrip_ne_nil name x hx hxs
  unfold add_rule
  rw [if_neg hstrip]
  rw [if_pos (by rcases h with h | h | h <;> simp [h])]

/-- C7 witness: the claim instantiated at the name "../etc/passwd". -/
theorem c7_witness :
    add_rule (WAFManager.new [] none) (S "x") (S "../etc/passwd") =
      (.error (S "Invalid rule name: cannot contain path traversal characters"),
       WAFManager.new [] none) :=
  c7_path_traversal (WAFManager.new [] none) (S "x") (S "../etc/passwd")
    (Or.inl (by decide))

/-- C9: every successful add of a name carrying no recognized extension
creates the backing file by appending ".rule"; the created file name ends in
".rule" and never in ".conf". -/
theorem c9_rule_extension (m m2 : WAFManager) (c n msg : List Char)
    (hext : endsExt n = false)
    (hadd : add_rule m c n = (.ok (true, msg), m2)) :
    m2.fsRules = m.fsRules ++ [(n ++ S ".rule", c)] ∧
    endsL (n ++ S ".rule") (S ".rule") = true ∧
    endsL (n ++ S ".rule") (S ".conf") = false := by
  refine ⟨?_, endsL_append n (S ".rule"), not_endsL_rule_conf n⟩
  unfold add_rule at hadd
  simp only [hext, Bool.false_eq_true, if_false] at hadd
  split_ifs at hadd <;> simp only [Prod.mk.injEq] at hadd
  · exact absurd hadd.1 (by simp)
  · exact absurd hadd.1 (by simp)
  · exact absurd hadd.1 (by simp)
  · exact absurd hadd.1 (by simp)
  · exact absurd hadd.1 (by simp)
  · exact absurd hadd.1 (by simp)
  · rw [← hadd.2]
  · rw [← hadd.2]

/-- C9 witness: adding evil under the extensionless name r1 creates
r1.rule. -/
theorem c9_witness :
    (add_rule (WAFManager.new [] none) (S "evil") (S "r1")).2.fsRules
      = (WAFManager.new [] none).fsRules ++ [(S "r1" ++ S ".rule", S "evil")] ∧
    endsL (S "r1" ++ S ".rule") (S ".rule") = true ∧
    endsL (S "r1" ++ S ".rule") (S ".conf") = false :=
  c9_rule_extension (WAFManager.new [] none)
    (add_rule (WAFManager.new [] none) (S "evil") (S "r1")).2
    (S "evil") (S "r1") (S "Rule r1.rule added successfully")
    (by decide) rfl

/-- C6 counterexample: for the creation-path name "a.conf" (already carrying
a recognized extension) the duplicate check compares the raw name against
listed stems and misses, so the second identical add fails through the
conflict ("created by another process") branch, not the Duplicate branch;
the store is still left unchanged. -/
theorem c6_extension_name_cex :
    (add_rule (WAFManager.new [] none) (S "x") (S "a.conf")).1
      = .ok (true, S "Rule a.conf added successfully") ∧
    (add_rule (add_rule (WAFManager.new [] none) (S "x") (S "a.conf")).2
        (S "x") (S "a.conf")).1
      = .ok (false, S "Rule \x27a.conf\x27 was created by another process") ∧
    S "Rule \x27a.conf\x27 was created by another process" ≠
      S "A rule named \x27a.conf\x27 already exists" ∧
    (add_rule (add_rule (WAFManager.new [] none) (S "x") (S "a.conf")).2
        (S "x") (S "a.conf")).2
      = (add_rule (WAFManager.new [] none) (S "x") (S "a.conf")).2 :=
  ⟨rfl, rfl, by decide, rfl⟩

/-- C6 (amended): for a fresh creation-path name n carrying no recognized
extension and different from ".", the first add succeeds and any second add
whose name is equal to n up to letter case is rejected by the Duplicate
branch with the store left unchanged; names that do carry a recognized
extension are instead rejected by the conflict branch (see the
counterexample). -/
theorem c6_duplicate_reject (m : WAFManager) (c n : List Char)
    (hname : pyStrip n ≠ [])
    (h1 : hasSub n (S "..") = false) (h2 : hasSub n (S "/") = false)
    (h3 : hasSub n (S "\\") = false)
    (hext : endsExt n = false) (hdot : n ≠ S ".")
    (hdup : strLower n ∉ (list_rules m).map strLower)
    (hc : pyStrip c ≠ []) (hcomp : compiles c = true) :
    (add_rule m c n).1
      = .ok (true, S "Rule " ++ (n ++ S ".rule") ++ S " added successfully") ∧
    ∀ c2 n2, strLower n2 = strLower n → pyStrip n2 ≠ [] →
      hasSub n2 (S "..") = false → hasSub n2 (S "/") = false →
      hasSub n2 (S "\\") = false →
      add_rule (add_rule m c n).2 c2 n2 =
        (.ok (false, S "A rule named \x27" ++ n2 ++ S "\x27 already exists"),
         (add_rule m c n).2) := by
  have hnil : n ≠ [] := by
    intro h
    rw [h] at hname
    exact hname rfl
  have hnd := exists_ne_dot n hnil hdot h1
  have hfresh := add_rule_fresh m c n hname h1 h2 h3 hext hdot hdup hc hcomp
  constructor
  · rw [hfresh]
  · intro c2 n2 hl hn2 h21 h22 h23
    rw [hfresh]
    show add_rule (addedState m c n) c2 n2 = _
    unfold add_rule
    rw [if_neg hn2]
    rw [if_neg (by rw [h21, h22, h23]; exact Bool.noConfusion)]
    rw [if_pos (by
      rw [list_rules_addedState m c n hnd, List.map_append, hl]
      exact List.mem_append_right _ (by simp))]

/-- C6 witness: r1 added over an empty store, then the case variant R1 is
rejected as a duplicate with the store unchanged. -/
theorem c6_witness :
    (add_rule (WAFManager.new [] none) (S "evil") (S "r1")).1
      = .ok (true, S "Rule " ++ (S "r1" ++ S ".rule") ++ S " added successfully") ∧
    add_rule (add_rule (WAFManager.new [] none) (S "evil") (S "r1")).2
        (S "y") (S "R1") =
      (.ok (false, S "A rule named \x27" ++ S "R1" ++ S "\x27 already exists"),
       (add_rule (WAFManager.new [] none) (S "evil") (S "r1")).2) := by
  have h := c6_duplicate_reject (WAFManager.new [] none) (S "evil") (S "r1")
    (by decide) (by decide) (by decide) (by decide) (by decide) (by decide)
    (by decide) (by decide) (by decide)
  exact ⟨h.1, h.2 (S "y") (S "R1") (by decide) (by decide) (by decide)
    (by decide) (by decide)⟩

/-- C2 counterexample: with the engine Stopped, test_request propagates the
ValueError raised before its try block instead of returning a Verdict, so
the claim that no exception ever reaches the caller fails. -/
theorem c2_raise_cex :
    test_request (stop_waf (WAFManager.new [] none)).2 (S "http://x.com/")
      (S "GET") [] none = .error (S "WAF is not running") := rfl

/-- C2 (amended): test_request raises (propagates) ValueError exactly for a
non-running engine or an empty URL; for a running engine and non-empty URL
it always returns a Verdict, and the only internal failure (URL-format
validation inside the try block) is captured as blocked=false with a
non-empty error field. -/
theorem c2_error_verdict (m : WAFManager) (url method : List Char)
    (headers : List (List Char × List Char)) (data : Option (List Char))
    (hs : get_status m = true) (hu : url ≠ []) :
    ∃ v, test_request m url method headers data = .ok v ∧
      (v.error = none ∨ (v.blocked = false ∧ ∃ e, v.error = some e ∧ e ≠ [])) := by
  unfold test_request
  rw [if_neg (by simp [hs])]
  rw [if_neg hu]
  by_cases hurl : urlOk url = true
  · rw [if_neg (by simp [hurl])]
    by_cases hms : collectMatches m url headers data = []
    · rw [if_pos hms]
      exact ⟨passVerdict, rfl, Or.inl rfl⟩
    · rw [if_neg hms]
      exact ⟨denyVerdict (collectMatches m url headers data), rfl, Or.inl rfl⟩
  · have hf : urlOk url = false := by
      revert hurl
      cases urlOk url <;> simp
    rw [if_pos (by simp [hf])]
    exact ⟨_, rfl, Or.inr ⟨rfl, _, rfl, by decide⟩⟩

/-- C2 witness: a running engine with the schemeless URL "x.com" yields an
unblocked verdict carrying a non-empty error. -/
theorem c2_witness :
    ∃ v, test_request (WAFManager.new [] none) (S "x.com") (S "GET") [] none
        = .ok v ∧
      (v.error = none ∨ (v.blocked = false ∧ ∃ e, v.error = some e ∧ e ≠ [])) :=
  c2_error_verdict (WAFManager.new [] none) (S "x.com") (S "GET") [] none
    (by decide) (by decide)

/-- State after adding the rule content evil under the name r1 on a freshly
constructed (hence running) manager over an empty rules directory; the add
triggers a reload, so the rule is armed. -/
def c5State : WAFManager :=
  (add_rule (WAFManager.new [] none) (S "evil") (S "r1")).2

/-- C5 counterexample: test_request does return blocked=true, but its
matched_rules sequence holds only the labeled pattern string "URL: evil";
no entry is a record carrying the category custom_rule or a reference to
the backing file r1.rule, so the claim about the verdict contents fails. -/
theorem c5_matched_rules_strings_cex :
    test_request c5State (S "http://x.com/evil") (S "GET") [] none
      = .ok { blocked := true, status_code := some 403,
              matched_rules := [S "URL: evil"], score := 1,
              action := some (S "DENY"), error := none } ∧
    hasSub (S "URL: evil") (S "custom_rule") = false ∧
    hasSub (S "URL: evil") (S "r1.rule") = false :=
  ⟨rfl, by decide, by decide⟩

/-- C5 (amended): after the add, test_request("http://x.com/evil") blocks
with matched_rules containing the source-labeled pattern string "URL: evil";
the category custom_rule and the backing file r1.rule appear only in the
records of the internal _check_patterns pass, which the verdict flattens to
labeled strings. -/
theorem c5_custom_rule_match :
    test_request c5State (S "http://x.com/evil") (S "GET") [] none
      = .ok { blocked := true, status_code := some 403,
              matched_rules := [S "URL: " ++ S "evil"], score := 1,
              action := some (S "DENY"), error := none } ∧
    _check_patterns c5State (S "http://x.com/evil")
      = [{ category := S "custom_rule", pattern := S "evil",
           value := S "http://x.com/evil", source := some (S "r1.rule") }] :=
  ⟨rfl, rfl⟩

/-- An accumulating snoc-on-hit fold is the accumulator followed by the
mapped filter. -/
theorem foldl_snoc_filter {α β : Type} (p : α → Bool) (g : α → β) :
    ∀ (l : List α) (acc : List β),
      l.foldl (fun a x => if p x then a ++ [g x] else a) acc
        = acc ++ (l.filter p).map g := by
  intro l
  induction l with
  | nil => intro acc; simp
  | cons x t ih =>
    intro acc
    simp only [List.foldl_cons]
    by_cases hx : p x = true
    · rw [if_pos hx, ih, List.filter_cons_of_pos hx]
      simp
    · rw [if_neg hx, ih, List.filter_cons_of_neg (by simp [hx])]

/-- The nested built-in fold is the accumulator followed by the flatMap
comprehension. -/
theorem foldl_categories (v : List Char) :
    ∀ (ps : List (List Char × List (List Char))) (acc : List MatchRecord),
      ps.foldl (fun acc2 cp =>
        cp.2.foldl (fun acc3 p =>
          if reSearch p v then
            acc3 ++ [{ category := cp.1, pattern := p, value := v, source := none }]
          else acc3) acc2) acc
      = acc ++ ps.flatMap (fun cp =>
          (cp.2.filter (fun p => reSearch p v)).map
            (fun p => { category := cp.1, pattern := p, value := v, source := none })) := by
  intro ps
  induction ps with
  | nil => intro acc; simp
  | cons cp t ih =>
    intro acc
    simp only [List.foldl_cons]
    rw [foldl_snoc_filter (fun p => reSearch p v)
      (fun p => { category := cp.1, pattern := p, value := v, source := none })
      cp.2 acc]
    rw [ih]
    simp [List.append_assoc]

/-- The built-in loop computes builtinMatches. -/
theorem builtinFold_eq (v : List Char) : builtinFold v = builtinMatches v := by
  unfold builtinFold builtinMatches
  rw [foldl_categories v patterns []]
  simp

/-- The custom loop appends customMatches after its accumulator. -/
theorem customFold_eq (rs : List (List Char × List Char)) (v : List Char)
    (acc0 : List MatchRecord) :
    customFold rs v acc0 = acc0 ++ customMatches (some rs) v := by
  unfold customFold customMatches
  rw [foldl_snoc_filter (fun e => reSearch e.2 v)
    (fun e => { category := S "custom_rule", pattern := e.2, value := v,
                source := some e.1 }) rs acc0]

/-- C8: _check_patterns is a deterministic pure function of the value and
the engine state, and its output decomposes as the built-in
signature-category records (categories in insertion order, patterns in
order) followed by all custom-rule records (rules in enumeration order);
built-in records carry a built-in category and no source, custom records
carry the category custom_rule and a source file. -/
theorem c8_check_deterministic_order (m : WAFManager) (value : List Char) :
    _check_patterns m value
      = (if value = [] then []
         else builtinMatches (strLower value) ++ customMatches m.rules (strLower value)) ∧
    (∀ r ∈ builtinMatches (strLower value),
      r.source = none ∧ (r.category = S "sqli" ∨ r.category = S "xss" ∨
        r.category = S "path_traversal")) ∧
    (∀ r ∈ customMatches m.rules (strLower value),
      r.category = S "custom_rule" ∧ r.source ≠ none) := by
  refine ⟨?_, ?_, ?_⟩
  · unfold _check_patterns
    by_cases hv : value = []
    · rw [if_pos hv, if_pos hv]
    · rw [if_neg hv, if_neg hv]
      cases hr : m.rules with
      | none =>
        rw [builtinFold_eq]
        unfold customMatches
        simp
      | some rs =>
        show customFold rs (strLower value) (builtinFold (strLower value))
          = builtinMatches (strLower value) ++ customMatches (some rs) (strLower value)
        rw [customFold_eq, builtinFold_eq]
  · intro r hr
    unfold builtinMatches at hr
    rw [List.mem_flatMap] at hr
    obtain ⟨cp, hcp, hr2⟩ := hr
    rw [List.mem_map] at hr2
    obtain ⟨p, _, hp2⟩ := hr2
    subst hp2
    simp only [patterns, List.mem_cons, List.not_mem_nil, or_false] at hcp
    rcases hcp with h | h | h <;> subst h
    · exact ⟨rfl, Or.inl rfl⟩
    · exact ⟨rfl, Or.inr (Or.inl rfl)⟩
    · exact ⟨rfl, Or.inr (Or.inr rfl)⟩
  · intro r hr
    unfold customMatches at hr
    cases hrm : m.rules with
    | none => rw [hrm] at hr; simp at hr
    | some rs =>
      rw [hrm] at hr
      rw [List.mem_map] at hr
      obtain ⟨e, _, he⟩ := hr
      subst he
      exact ⟨rfl, by simp⟩

/-- C8 witness: the decomposition instantiated at the armed c5State and a
concrete value, together with the custom-record conclusion discharged at the
concrete record the engine produces there. -/
theorem c8_witness :
    (_check_patterns c5State (S "http://x.com/evil")
      = (if (S "http://x.com/evil" : List Char) = [] then []
         else builtinMatches (strLower (S "http://x.com/evil"))
           ++ customMatches c5State.rules (strLower (S "http://x.com/evil")))) ∧
    (({ category := S "custom_rule", pattern := S "evil",
        value := strLower (S "http://x.com/evil"),
        source := some (S "r1.rule") } : MatchRecord).category = S "custom_rule" ∧
     ({ category := S "custom_rule", pattern := S "evil",
        value := strLower (S "http://x.com/evil"),
        source := some (S "r1.rule") } : MatchRecord).source ≠ none) :=
  ⟨(c8_check_deterministic_order c5State (S "http://x.com/evil")).1,
   (c8_check_deterministic_order c5State (S "http://x.com/evil")).2.2
     { category := S "custom_rule", pattern := S "evil",
       value := strLower (S "http://x.com/evil"),
       source := some (S "r1.rule") } (by decide)⟩

/-- Dropping to the last n elements is absorbed by a subsequent
last-n-of-append. -/
theorem drop_sub_absorb (n : Nat) (u ls : List (List Char)) :
    ((u.drop (u.length - n)) ++ ls).drop
        (((u.drop (u.length - n)) ++ ls).length - n)
      = (u ++ ls).drop ((u ++ ls).length - n) := by
  simp only [List.drop_append_eq_append_drop, List.length_append,
    List.length_drop, List.drop_drop]
  congr 1
  · congr 1
    omega
  · congr 1
    omega

/-- The sliding-buffer loop of get_logs computes the last n lines of the
whole input. -/
theorem slide_foldl (n : Nat) :
    ∀ (ls acc : List (List Char)), acc.length ≤ n →
      ls.foldl (fun buf line =>
        if n < (buf ++ [line]).length then (buf ++ [line]).drop 1
        else buf ++ [line]) acc
      = (acc ++ ls).drop ((acc ++ ls).length - n) := by
  intro ls
  induction ls with
  | nil =>
    intro acc h
    simp only [List.foldl_nil, List.append_nil]
    have h0 : acc.length - n = 0 := by omega
    rw [h0, List.drop_zero]
  | cons x t ih =>
    intro acc h
    simp only [List.foldl_cons]
    have hstep : (if n < (acc ++ [x]).length then (acc ++ [x]).drop 1
        else acc ++ [x])
        = (acc ++ [x]).drop ((acc ++ [x]).length - n) := by
      by_cases hc : n < (acc ++ [x]).length
      · rw [if_pos hc]
        have h1 : (acc ++ [x]).length - n = 1 := by
          rw [List.length_append] at hc ⊢
          simp at hc ⊢
          omega
        rw [h1]
      · rw [if_neg hc]
        have h0 : (acc ++ [x]).length - n = 0 := by
          rw [List.length_append] at hc ⊢
          omega
        rw [h0, List.drop_zero]
    rw [hstep]
    have hlen : ((acc ++ [x]).drop ((acc ++ [x]).length - n)).length ≤ n := by
      rw [List.length_drop]
      omega
    rw [ih _ hlen]
    rw [drop_sub_absorb n (acc ++ [x]) t]
    simp [List.append_assoc]

/-- C10: get_logs returns exactly the last min(n, total) lines of the log
file concatenated in file order, the fixed string "No logs available" when
the log file is missing, and (being a total function of the state) never
raises. -/
theorem c10_get_logs (m : WAFManager) (n : Nat) :
    (m.logLines = none → get_logs m n = S "No logs available") ∧
    (∀ ls, m.logLines = some ls →
      get_logs m n = (ls.drop (ls.length - n)).flatten ∧
      (ls.drop (ls.length - n)).length = min n ls.length) := by
  constructor
  · intro h
    unfold get_logs
    rw [h]
  · intro ls h
    unfold get_logs
    rw [h]
    constructor
    · show (ls.foldl _ []).flatten = _
      rw [slide_foldl n ls [] (by simp)]
      simp
    · rw [List.length_drop]
      omega

/-- C10 witness: three log lines, tail of two. -/
theorem c10_witness :
    get_logs { fsRules := [], logLines := some [S "a\n", S "b\n", S "c\n"],
               rules := none } 2 = S "b\nc\n" := by
  have h := (c10_get_logs
    { fsRules := [], logLines := some [S "a\n", S "b\n", S "c\n"],
      rules := none } 2).2 [S "a\n", S "b\n", S "c\n"] rfl
  rw [h.1]
  decide
